import Mathlib

/-!
Verification development for the contractpilot clause segmentation and
position-mapping pipeline (`backend/tools.py`), shallowly embedded in Lean.

Strings are modelled as `List Char` (Python `str` over the ASCII inputs the
pipeline handles; `\d`, `\s`, `[a-z]`, `str.lower`, `str.strip` are the ASCII
versions, which agree with Python on such input).  Python float coordinates
are modelled as exact rationals `ℚ`; none of the verified claims depends on
rounding behaviour.
-/

namespace ContractPilot

/-- Python whitespace: the `\s` class and the `str.strip`/`str.split` char set
(ASCII part). -/
def isPyWs (c : Char) : Bool :=
  c == ' ' || c == '\t' || c == '\n' || c == '\r' || c == '\x0b' || c == '\x0c'

/-- Length of the maximal prefix of the list all of whose chars satisfy `f`. -/
def countWhile (f : Char → Bool) : List Char → Nat
  | [] => 0
  | c :: rest => if f c then countWhile f rest + 1 else 0

/-- Python `str.strip()`. -/
def pyStrip (cs : List Char) : List Char :=
  ((cs.dropWhile isPyWs).reverse.dropWhile isPyWs).reverse

/-- `.` or `)` — the `[\.\)]` character class. -/
def isDotParen (c : Char) : Bool := c == '.' || c == ')'

/-- A clause record as produced by `extract_clauses` / `split_into_subclauses`:
a Python dict with keys `heading`, `text` and optionally `parentHeading`,
`subClauseIndex`. -/
structure Clause where
  heading : List Char
  text : List Char
  parentHeading : Option (List Char)
  subClauseIndex : Option Nat
deriving DecidableEq

/-- Python truthiness test `not c.get("parentHeading")`: the key is absent,
or maps to the empty string. -/
def isTopLevel (c : Clause) : Bool :=
  match c.parentHeading with
  | none => true
  | some s => s.isEmpty

/-! ## `extract_clauses`: the primary heading split

The split pattern is `(?:^|\n)(?=ALT1|...|ALT5)` with NO `re.MULTILINE`, so
`^` matches only at position 0.  The five lookahead alternatives are embedded
as executable recognizers on the suffix following a split point. -/

/-- Consume `(?:\.\d+)*` greedily, returning the rest of the input. -/
def primDotDigitGroups : List Char → List Char
  | '.' :: rest =>
    let d := countWhile Char.isDigit rest
    if d = 0 then '.' :: rest else primDotDigitGroups (rest.drop d)
  | cs => cs
termination_by cs => cs.length
decreasing_by
  simp only [List.length_drop, List.length_cons]
  omega

/-- `\d+\.\d+(?:\.\d+)*[\.\)]*\s` holds at the head of `cs`. -/
def primDecimal (cs : List Char) : Bool :=
  let d1 := countWhile Char.isDigit cs
  if d1 = 0 then false
  else
    match cs.drop d1 with
    | '.' :: rest =>
      let d2 := countWhile Char.isDigit rest
      if d2 = 0 then false
      else
        let rest2 := primDotDigitGroups (rest.drop d2)
        let k := countWhile isDotParen rest2
        match (rest2.drop k).head? with
        | some c => isPyWs c
        | none => false
    | _ => false

/-- `\d+[\.\)]\s` holds at the head of `cs`. -/
def primSingleLevel (cs : List Char) : Bool :=
  let d := countWhile Char.isDigit cs
  if d = 0 then false
  else
    match cs.drop d with
    | c :: w :: _ => isDotParen c && isPyWs w
    | _ => false

/-- `Section\s+\d` holds at the head of `cs`. -/
def primSection (cs : List Char) : Bool :=
  if ("Section".data).isPrefixOf cs then
    let rest := cs.drop 7
    let r := countWhile isPyWs rest
    if r = 0 then false
    else
      match (rest.drop r).head? with
      | some c => c.isDigit
      | none => false
  else false

/-- `ARTICLE\s+[IVX\d]` holds at the head of `cs`. -/
def primArticle (cs : List Char) : Bool :=
  if ("ARTICLE".data).isPrefixOf cs then
    let rest := cs.drop 7
    let r := countWhile isPyWs rest
    if r = 0 then false
    else
      match (rest.drop r).head? with
      | some c => c == 'I' || c == 'V' || c == 'X' || c.isDigit
      | none => false
  else false

/-- `[A-Z][A-Z\s]{3,}:` holds at the head of `cs`. -/
def primAllCaps (cs : List Char) : Bool :=
  match cs with
  | c :: rest =>
    if c.isUpper then
      let r := countWhile (fun d => d.isUpper || isPyWs d) rest
      if r < 3 then false
      else
        match (rest.drop r).head? with
        | some c2 => c2 == ':'
        | none => false
    else false
  | [] => false

/-- The `extract_clauses` split-pattern lookahead holds at the head of `cs`. -/
def lookaheadPrimary (cs : List Char) : Bool :=
  primDecimal cs || primSingleLevel cs || primSection cs ||
    primArticle cs || primAllCaps cs

/-- Pieces of `re.split` after the optional position-0 zero-width match:
walking the text, a `\n` whose suffix satisfies the lookahead ends the
current piece (the `\n` is consumed by the match). -/
def splitPiecesAux (acc : List Char) : List Char → List (List Char)
  | [] => [acc.reverse]
  | c :: rest =>
    if c == '\n' && lookaheadPrimary rest then
      acc.reverse :: splitPiecesAux [] rest
    else
      splitPiecesAux (c :: acc) rest

/-- `re.split(pattern, contract_text)` for the `extract_clauses` pattern:
a zero-width match at position 0 contributes a leading empty piece. -/
def splitSections (t : List Char) : List (List Char) :=
  if lookaheadPrimary t then [] :: splitPiecesAux [] t else splitPiecesAux [] t

/-- `[\.\)]*$` holds for the whole list. -/
def tailDotParens : List Char → Bool
  | [] => true
  | c :: rest => isDotParen c && tailDotParens rest

/-- `[\.\d]*[\.\)]*$` holds for the whole list (with regex backtracking:
at every point the matcher may stay in `[\.\d]*` or switch to `[\.\)]*`). -/
def tailNumeric : List Char → Bool
  | [] => true
  | c :: rest =>
    if c.isDigit || c == '.' then tailNumeric rest || tailDotParens (c :: rest)
    else tailDotParens (c :: rest)

/-- `re.match(r"^\d+[\.\d]*[\.\)]*$", heading)` succeeds. -/
def numericHeading (cs : List Char) : Bool :=
  match cs with
  | c :: rest => c.isDigit && tailNumeric rest
  | [] => false

/-- Build a clause from one section of the primary split, or skip it:
`section.strip()`, the 30-char filter, heading from the first line with the
numeric-heading fixup, and the 3000-char text cap. -/
def sectionToClause (sec : List Char) : Option Clause :=
  let s := pyStrip sec
  if s.length < 30 then none
  else
    let line0 := s.takeWhile (fun c => c != '\n')
    let heading0 := (pyStrip line0).take 100
    let heading :=
      if numericHeading heading0 && s.contains '\n' then
        let line1 := ((s.dropWhile (fun c => c != '\n')).drop 1).takeWhile
          (fun c => c != '\n')
        let next_line := (pyStrip line1).take 80
        (heading0 ++ [' '] ++ next_line).take 100
      else heading0
    some { heading := heading, text := s.take 3000,
           parentHeading := none, subClauseIndex := none }

/-- The clause list the primary loop of `extract_clauses` builds. -/
def primaryClauses (t : List Char) : List Clause :=
  (splitSections t).filterMap sectionToClause

/-- Python `contract_text.split("\n\n")`. -/
def splitOnBlankAux (acc : List Char) : List Char → List (List Char)
  | '\n' :: '\n' :: rest => acc.reverse :: splitOnBlankAux [] rest
  | c :: rest => splitOnBlankAux (c :: acc) rest
  | [] => [acc.reverse]

/-- Python `contract_text.split("\n\n")`. -/
def splitOnBlank (t : List Char) : List (List Char) := splitOnBlankAux [] t

/-- The `extract_clauses` paragraph fallback loop
(`for i, para in enumerate(paragraphs)`), carrying the paragraph index `i`. -/
def fallbackAux (i : Nat) : List (List Char) → List Clause
  | [] => []
  | para :: rest =>
    let p := pyStrip para
    if p.length < 30 then fallbackAux (i + 1) rest
    else
      { heading := ("Section " ++ Nat.repr (i + 1)).data, text := p.take 3000,
        parentHeading := none, subClauseIndex := none } :: fallbackAux (i + 1) rest

/-- `extract_clauses(contract_text)` from `backend/tools.py`. -/
def extract_clauses (t : List Char) : List Clause :=
  let clauses := primaryClauses t
  if clauses.isEmpty then fallbackAux 0 (splitOnBlank t) else clauses

/-! ## `_SUB_CLAUSE_PATTERN` and `split_into_subclauses`

The pattern `(?:^|\n)\s*(?:ALT1|...|ALT6)` is compiled with `re.MULTILINE`,
so `^` matches at position 0 and right after any `\n`.  Since every
alternative starts with a non-whitespace char, the greedy `\s*` never
backtracks, and each alternative is a deterministic recognizer returning the
length it consumes. -/

/-- `\d+\.\d+[\.\)]*\s`: length consumed, if it matches the head of `cs`. -/
def subDecimal2 (cs : List Char) : Option Nat :=
  let d1 := countWhile Char.isDigit cs
  if d1 = 0 then none
  else
    match cs.drop d1 with
    | '.' :: rest =>
      let d2 := countWhile Char.isDigit rest
      if d2 = 0 then none
      else
        let rest2 := rest.drop d2
        let k := countWhile isDotParen rest2
        match (rest2.drop k).head? with
        | some c => if isPyWs c then some (d1 + 1 + d2 + k + 1) else none
        | none => none
    | _ => none

/-- `\([a-z]\)\s`: length consumed, if it matches the head of `cs`. -/
def subParenLower (cs : List Char) : Option Nat :=
  match cs with
  | '(' :: a :: ')' :: w :: _ =>
    if a.isLower && isPyWs w then some 4 else none
  | _ => none

/-- `i`, `v`, `x`, `l` or `c` — the `[ivxlc]` class. -/
def isRomanChar (c : Char) : Bool :=
  c == 'i' || c == 'v' || c == 'x' || c == 'l' || c == 'c'

/-- `\([ivxlc]+\)\s`: length consumed, if it matches the head of `cs`. -/
def subParenRoman (cs : List Char) : Option Nat :=
  match cs with
  | '(' :: rest =>
    let r := countWhile isRomanChar rest
    if r = 0 then none
    else
      match rest.drop r with
      | ')' :: w :: _ => if isPyWs w then some (1 + r + 2) else none
      | _ => none
  | _ => none

/-- `\([A-Z]\)\s`: length consumed, if it matches the head of `cs`. -/
def subParenUpper (cs : List Char) : Option Nat :=
  match cs with
  | '(' :: a :: ')' :: w :: _ =>
    if a.isUpper && isPyWs w then some 4 else none
  | _ => none

/-- `[a-z][\.\)]\s`: length consumed, if it matches the head of `cs`. -/
def subBareLetter (cs : List Char) : Option Nat :=
  match cs with
  | a :: d :: w :: _ =>
    if a.isLower && isDotParen d && isPyWs w then some 3 else none
  | _ => none

/-- `\d+\.\d+\.\d+[\.\)]*\s`: length consumed, if it matches the head of
`cs`. -/
def subDecimal3 (cs : List Char) : Option Nat :=
  let d1 := countWhile Char.isDigit cs
  if d1 = 0 then none
  else
    match cs.drop d1 with
    | '.' :: rest =>
      let d2 := countWhile Char.isDigit rest
      if d2 = 0 then none
      else
        match (rest.drop d2) with
        | '.' :: rest2 =>
          let d3 := countWhile Char.isDigit rest2
          if d3 = 0 then none
          else
            let rest3 := rest2.drop d3
            let k := countWhile isDotParen rest3
            match (rest3.drop k).head? with
            | some c => if isPyWs c then some (d1 + 1 + d2 + 1 + d3 + k + 1) else none
            | none => none
        | _ => none
    | _ => none

/-- The six sub-clause alternatives, tried in the pattern's order. -/
def subMarker (cs : List Char) : Option Nat :=
  (subDecimal2 cs).orElse fun _ =>
  (subParenLower cs).orElse fun _ =>
  (subParenRoman cs).orElse fun _ =>
  (subParenUpper cs).orElse fun _ =>
  (subBareLetter cs).orElse fun _ =>
  subDecimal3 cs

/-- Try a full-pattern match of `_SUB_CLAUSE_PATTERN` at position `p` of
`text`, returning the end position.  `^` (MULTILINE) applies at position 0 or
after a `\n`; otherwise the `\n` branch consumes the newline at `p`. -/
def subMatchAt (text : List Char) (p : Nat) : Option Nat :=
  if p = 0 || text.getD (p - 1) ' ' == '\n' then
    let q := p + countWhile isPyWs (text.drop p)
    (subMarker (text.drop q)).map (fun len => q + len)
  else if text.getD p ' ' == '\n' then
    let q := p + 1 + countWhile isPyWs (text.drop (p + 1))
    (subMarker (text.drop q)).map (fun len => q + len)
  else none

/-- `finditer` scan: leftmost match from each position, resuming at the match
end.  All matches are nonempty, so fuel `text.length + 1` suffices. -/
def subScanAux (text : List Char) : Nat → Nat → List (Nat × Nat)
  | 0, _ => []
  | fuel + 1, p =>
    if text.length ≤ p then []
    else
      match subMatchAt text p with
      | some e => (p, e) :: subScanAux text fuel e
      | none => subScanAux text fuel (p + 1)

/-- `list(_SUB_CLAUSE_PATTERN.finditer(text))` as (start, end) spans. -/
def findSubMatches (text : List Char) : List (Nat × Nat) :=
  subScanAux text (text.length + 1) 0

/-- The inner child-building loop of `split_into_subclauses`
(`for i, match in enumerate(matches)`): `i` is the running marker index,
each span runs from its marker's start to the next marker's start (or the
end of the text), spans under 20 chars are skipped. -/
def buildSubEntries (heading text : List Char) : Nat → List (Nat × Nat) → List Clause
  | _, [] => []
  | i, m :: rest =>
    let start := m.1
    let stop := match rest with
      | [] => text.length
      | m2 :: _ => m2.1
    let sub_text := pyStrip ((text.drop start).take (stop - start))
    let tail := buildSubEntries heading text (i + 1) rest
    if sub_text.length < 20 then tail
    else
      let sub_heading := (pyStrip (sub_text.takeWhile (fun c => c != '\n'))).take 100
      { heading := sub_heading, text := sub_text.take 3000,
        parentHeading := some heading, subClauseIndex := some i } :: tail

/-- The per-clause body of the `split_into_subclauses` loop. -/
def splitOneClause (clause : Clause) : List Clause :=
  let text := clause.text
  let heading := clause.heading
  let ms := findSubMatches text
  if ms.length < 2 then [clause]
  else
    let preamble_end := ms.headI.1
    let preamble := pyStrip (text.take preamble_end)
    (if 30 < preamble.length then
      [{ heading := heading, text := preamble.take 3000,
         parentHeading := none, subClauseIndex := none }]
     else []) ++ buildSubEntries heading text 0 ms

/-- `split_into_subclauses(clauses)` from `backend/tools.py`. -/
def split_into_subclauses (clauses : List Clause) : List Clause :=
  clauses.flatMap splitOneClause

/-! ## `_cap_clauses`

The source keys its `kept_set` by `id(c)`, the object identity of each dict.
Every dict in the input list is a distinct object, so object identity is
modelled by the element's position: `clauses.enum` pairs each clause with its
index, and the final rebuild keeps exactly the positions whose ids are in the
kept set. -/

/-- Positions (object ids) of the kept clauses: all top-level positions plus
the first `remaining` sub-clause positions (`kept_set` in the source). -/
def keptIdxs (clauses : List Clause) (remaining : Nat) : List Nat :=
  ((clauses.enum.filter (fun p => isTopLevel p.2)).map Prod.fst) ++
    ((clauses.enum.filter (fun p => !isTopLevel p.2)).map Prod.fst).take remaining

/-- `_cap_clauses(clauses, limit)` from `backend/tools.py` (the source's
`top_level` and `remaining` locals are written inline). -/
def _cap_clauses (clauses : List Clause) (limit : Nat) : List Clause :=
  if clauses.length ≤ limit then clauses
  else if limit ≤ (clauses.filter (fun c => isTopLevel c)).length then
    (clauses.filter (fun c => isTopLevel c)).take limit
  else
    (clauses.enum.filter
      (fun p => decide (p.1 ∈
        keptIdxs clauses
          (limit - (clauses.filter (fun c => isTopLevel c)).length)))).map
      Prod.snd

/-- Reference form of the branch-3 rebuild: walk the list in order, keep every
top-level clause, and keep the first `rem` sub-clauses encountered. -/
def capKeep : List Clause → Nat → List Clause
  | [], _ => []
  | c :: rest, rem =>
    if isTopLevel c then c :: capKeep rest rem
    else
      match rem with
      | 0 => capKeep rest 0
      | r + 1 => c :: capKeep rest r

/-! ## Position records and the OCR position matcher

`fitz` page geometry is abstracted per spec sections 6 and 9: the OCR matcher
consumes the per-page dimension table that
`match_clauses_to_ocr_boxes` builds from the document, and the direct-text
locator consumes pages exposing a text-search operation and a line dump. -/

/-- A rectangle `{x0, y0, x1, y1}` in page coordinates. -/
structure Rect where
  x0 : ℚ
  y0 : ℚ
  x1 : ℚ
  y1 : ℚ
deriving DecidableEq

/-- A position record as returned by both locators. -/
structure Position where
  pageNumber : Nat
  rects : List Rect
  pageWidth : ℚ
  pageHeight : ℚ
deriving DecidableEq

/-- The no-match sentinel `{pageNumber: 0, rects: [], pageWidth: 612,
pageHeight: 792}`. -/
def noMatchPosition : Position :=
  { pageNumber := 0, rects := [], pageWidth := 612, pageHeight := 792 }

/-- One OCR word box: `{text, x0, y0, x1, y1, page}`. -/
structure OcrWord where
  text : List Char
  x0 : ℚ
  y0 : ℚ
  x1 : ℚ
  y1 : ℚ
  page : Nat
deriving DecidableEq

instance : Inhabited OcrWord := ⟨⟨[], 0, 0, 0, 0, 0⟩⟩

/-- Maximal runs of chars satisfying `keep`, accumulated in `cur` (reversed):
the `re.findall` of a one-class `+` pattern. -/
def charRunsAux (keep : Char → Bool) (cur : List Char) :
    List Char → List (List Char)
  | [] => if cur.isEmpty then [] else [cur.reverse]
  | c :: rest =>
    if keep c then charRunsAux keep (c :: cur) rest
    else if cur.isEmpty then charRunsAux keep [] rest
    else cur.reverse :: charRunsAux keep [] rest

/-- `re.findall(r"[a-z0-9]+", s)` (on already-lowercased text). -/
def alnumRuns (cs : List Char) : List (List Char) :=
  charRunsAux (fun c => (('a' ≤ c && c ≤ 'z') || c.isDigit)) [] cs

/-- `ocr_words[i + j]["text"].lower().startswith(tw[:4])`, with the
out-of-range guard of the source's short-circuit `and`. -/
def ocrPrefixHit (ocr_words : List OcrWord) (i : Nat) (tw : List Char) : Bool :=
  decide (i < ocr_words.length) &&
    (tw.take 4).isPrefixOf ((ocr_words.getD i default).text.map Char.toLower)

/-- The inner scoring loop: how many of the target tokens `j` have a prefix
hit at OCR position `i + j`. -/
def ocrWindowScore (ocr_words : List OcrWord) (target : List (List Char))
    (i : Nat) : Nat :=
  target.enum.foldl
    (fun score jt =>
      if ocrPrefixHit ocr_words (i + jt.1) jt.2 then score + 1 else score) 0

/-- The sliding-window loop: fold over `range(len(ocr_words) - len(target))`
keeping `(best_idx, best_score)`, updating on strictly greater scores. -/
def ocrBestMatch (ocr_words : List OcrWord) (target : List (List Char)) :
    Int × Nat :=
  (List.range (ocr_words.length - target.length)).foldl
    (fun best i =>
      if best.2 < ocrWindowScore ocr_words target i then
        (Int.ofNat i, ocrWindowScore ocr_words target i)
      else best)
    (-1, 0)

/-- Group consecutive matched words into lines: append to the current line
while the vertical-center gap to the previous word stays under 8.  `current`
holds the open line in reverse. -/
def groupLinesAux (current : List OcrWord) : List OcrWord → List (List OcrWord)
  | [] => [current.reverse]
  | w :: rest =>
    let prev := current.headI
    if |(w.y0 + w.y1) / 2 - (prev.y0 + prev.y1) / 2| < 8 then
      groupLinesAux (w :: current) rest
    else
      current.reverse :: groupLinesAux [w] rest

/-- The union box of one grouped line (`min`/`max` over its words). -/
def lineRect : List OcrWord → Rect
  | [] => ⟨0, 0, 0, 0⟩
  | w :: rest =>
    ⟨rest.foldl (fun a v => min a v.x0) w.x0,
     rest.foldl (fun a v => min a v.y0) w.y0,
     rest.foldl (fun a v => max a v.x1) w.x1,
     rest.foldl (fun a v => max a v.y1) w.y1⟩

/-- The per-clause body of the `match_clauses_to_ocr_boxes` loop.
`page_dims` is the per-page dimension table the source extracts from the
PDF (index = page number). -/
def ocrClausePosition (ocr_words : List OcrWord) (page_dims : List (ℚ × ℚ))
    (clause : Clause) : Position :=
  let raw := pyStrip clause.text
  let clause_words_lower := alnumRuns ((raw.take 200).map Char.toLower)
  if clause_words_lower.length < 3 then noMatchPosition
  else
    let target := clause_words_lower.take 8
    let best := ocrBestMatch ocr_words target
    if best.2 < 3 || best.1 < 0 then noMatchPosition
    else
      -- best.1 was set to some in-range `Int.ofNat i`, so `toNat` is exact
      let best_idx := best.1.toNat
      let page_num := (ocr_words.getD best_idx default).page
      let matched_words :=
        ((ocr_words.drop best_idx).take 40).takeWhile (fun w => w.page == page_num)
      match matched_words with
      | [] =>
        let dims := (page_dims.getD page_num ((612 : ℚ), (792 : ℚ)))
        { pageNumber := page_num, rects := [],
          pageWidth := dims.1, pageHeight := dims.2 }
      | mw0 :: mwrest =>
        let lines := groupLinesAux [mw0] mwrest
        let rects := lines.map lineRect
        let dims := (page_dims.getD page_num ((612 : ℚ), (792 : ℚ)))
        { pageNumber := page_num, rects := rects,
          pageWidth := dims.1, pageHeight := dims.2 }

/-- `match_clauses_to_ocr_boxes(clauses, ocr_words, pdf_bytes)`: the
append-per-clause loop over `clauses`. -/
def match_clauses_to_ocr_boxes (clauses : List Clause)
    (ocr_words : List OcrWord) (page_dims : List (ℚ × ℚ)) : List Position :=
  clauses.map (ocrClausePosition ocr_words page_dims)

/-! ## The direct-text position locator

`fitz` pages are abstracted per spec sections 6 and 9: a page exposes a
text-search operation (all rectangles matching a literal substring, in page
order), the line-level text geometry dump (`page.get_text("dict")` lines),
and its dimensions. -/

/-- One text line of a page's geometry dump: bounding box plus text. -/
structure PageLine where
  bbox : Rect
  text : List Char

/-- An abstract rendered page (spec section 6 "rendered document" input). -/
structure PageData where
  search : List Char → List Rect
  lines : List PageLine
  width : ℚ
  height : ℚ

/-- `re.findall(r"[a-zA-Z]{3,}", s)`: maximal ASCII-letter runs of length at
least 3. -/
def letterTokens (cs : List Char) : List (List Char) :=
  (charRunsAux (fun c => c.isAlpha) [] cs).filter (fun r => 3 ≤ r.length)

/-- The candidate word set of `_expand_to_paragraph`
(`set(re.findall(r"[a-zA-Z]{3,}", clause_text.lower()[:500]))`). -/
def clauseWordSet (clause_text : List Char) : Finset (List Char) :=
  (letterTokens ((clause_text.map Char.toLower).take 500)).toFinset

/-- The word set of one geometry line (`set(re.findall(...))` on the line's
lowercased text). -/
def lineWordSet (l : PageLine) : Finset (List Char) :=
  (letterTokens (l.text.map Char.toLower)).toFinset

/-- The start-line search of `_expand_to_paragraph`: index of the first line
whose vertical center is nearest `start_y` (strict improvement over a running
minimum that starts at infinity). -/
def findStartIdx (all_lines : List PageLine) (start_y : ℚ) : Nat :=
  (all_lines.enum.foldl
    (fun acc il =>
      let line_y := (il.2.bbox.y0 + il.2.bbox.y1) / 2
      let dist := |line_y - start_y|
      match acc.2 with
      | none => (il.1, some dist)
      | some m => if dist < m then (il.1, some dist) else acc)
    ((0 : Nat), (none : Option ℚ))).1

/-- The keep condition for a line after the first:
`overlap >= 2 or (overlap >= 1 and len(line_words) <= 3)`. -/
def lineOverlapOk (clause_words : Finset (List Char)) (l : PageLine) : Bool :=
  let line_words := lineWordSet l
  let overlap := (line_words ∩ clause_words).card
  decide (2 ≤ overlap) || (decide (1 ≤ overlap) && decide (line_words.card ≤ 3))

/-- Walk the lines after the start line, keeping while the overlap condition
holds (the loop's `break`). -/
def walkTail (clause_words : Finset (List Char)) : List PageLine → List Rect
  | [] => []
  | l :: rest =>
    if lineOverlapOk clause_words l then l.bbox :: walkTail clause_words rest
    else []

/-- `_expand_to_paragraph(page, start_rect, clause_text)`. -/
def expandToParagraph (page : PageData) (start_rect : Rect)
    (clause_text : List Char) : List Rect :=
  let all_lines := page.lines
  if all_lines.isEmpty then [start_rect]
  else
    let clause_words := clauseWordSet clause_text
    let start_y := (start_rect.y0 + start_rect.y1) / 2
    let start_idx := findStartIdx all_lines start_y
    let rects :=
      match (all_lines.drop start_idx).take 30 with
      | [] => []
      | l :: rest => l.bbox :: walkTail clause_words rest
    if rects.isEmpty then [start_rect] else rects

/-- `" ".join(raw[:snippet_len].split())`: whitespace-normalization of a
prefix. -/
def normalizeWs (cs : List Char) : List Char :=
  List.intercalate [' '] (charRunsAux (fun c => !isPyWs c) [] cs)

/-- The page scan for one snippet: first page (in document order) whose
search returns any rectangle, with that page's index and first hit. -/
def searchPagesAux (snippet : List Char) :
    Nat → List PageData → Option (Nat × PageData × Rect)
  | _, [] => none
  | n, page :: rest =>
    match page.search snippet with
    | [] => searchPagesAux snippet (n + 1) rest
    | r :: _ => some (n, page, r)

/-- One snippet-length attempt of the locator loop: skip snippets under 10
chars, otherwise search all pages and expand the first hit. -/
def trySnippetLen (pages : List PageData) (raw : List Char)
    (snippet_len : Nat) : Option Position :=
  let snippet := normalizeWs (raw.take snippet_len)
  if snippet.length < 10 then none
  else
    match searchPagesAux snippet 0 pages with
    | none => none
    | some (page_num, page, r0) =>
      some { pageNumber := page_num,
             rects := expandToParagraph page r0 raw,
             pageWidth := page.width, pageHeight := page.height }

/-- The per-clause body of the `extract_clause_positions` loop: snippet
lengths 80, 50, 30 in order, sentinel on total failure. -/
def clausePosition (pages : List PageData) (clause : Clause) : Position :=
  let raw := pyStrip clause.text
  match trySnippetLen pages raw 80 with
  | some p => p
  | none =>
    match trySnippetLen pages raw 50 with
    | some p => p
    | none =>
      match trySnippetLen pages raw 30 with
      | some p => p
      | none => noMatchPosition

/-- `extract_clause_positions(pdf_bytes, clauses)`: the append-per-clause
loop over `clauses`. -/
def extract_clause_positions (pages : List PageData) (clauses : List Clause) :
    List Position :=
  clauses.map (clausePosition pages)

/-! ## Claim C1 -/

/-- The clause of claim C1: the spec example's exact text (no newlines). -/
def c1Clause : Clause :=
  ⟨"3. Confidentiality".data,
   ("3.1 Confidentiality. Party shall not disclose. " ++
    "3.2 Remedies. Injunctive relief available.").data,
   none, none⟩

/-- The same clause with the second marker at a line start. -/
def c1ClauseNl : Clause :=
  ⟨"3. Confidentiality".data,
   ("3.1 Confidentiality. Party shall not disclose.\n" ++
    "3.2 Remedies. Injunctive relief available.").data,
   none, none⟩

/-- Claim C1 is false as stated: on the exact example text the sub-clause
pattern anchors every marker at a line start (`(?:^|\n)` with MULTILINE), so
only the leading "3.1 " matches, fewer than 2 markers are found, and
`split_into_subclauses` keeps the clause unmodified instead of producing two
children. -/
theorem c1_counterexample :
    split_into_subclauses [c1Clause] = [c1Clause] ∧
      (split_into_subclauses [c1Clause]).length ≠ 2 := by decide

/-- Claim C1, amended: once the second marker sits at a line start (a newline
before "3.2", as in a real contract layout), `split_into_subclauses` replaces
the clause with exactly two children, with `subClauseIndex` 0 and 1 and
`parentHeading` equal to the original clause's heading. -/
theorem c1_amended :
    split_into_subclauses [c1ClauseNl] =
      [⟨"3.1 Confidentiality. Party shall not disclose.".data,
        "3.1 Confidentiality. Party shall not disclose.".data,
        some "3. Confidentiality".data, some 0⟩,
       ⟨"3.2 Remedies. Injunctive relief available.".data,
        "3.2 Remedies. Injunctive relief available.".data,
        some "3. Confidentiality".data, some 1⟩] := by decide

/-! ## Claim C4 -/

/-- Every child emitted by the sub-entry loop carries the parent heading, a
text of between 20 and 3000 chars, and a marker index at least the loop
counter. -/
theorem buildSubEntries_mem {heading text : List Char} :
    ∀ {i : Nat} {ms : List (Nat × Nat)} {c : Clause},
      c ∈ buildSubEntries heading text i ms →
      c.parentHeading = some heading ∧ 20 ≤ c.text.length ∧
        c.text.length ≤ 3000 ∧ ∃ j, c.subClauseIndex = some j ∧ i ≤ j := by
  intro i ms
  induction ms generalizing i with
  | nil => intro c h; simp [buildSubEntries] at h
  | cons m rest ih =>
    intro c h
    simp only [buildSubEntries] at h
    split at h
    · obtain ⟨h1, h2, h3, j, h4, h5⟩ := ih h
      exact ⟨h1, h2, h3, j, h4, Nat.le_of_succ_le h5⟩
    · rename_i hlen
      rcases List.mem_cons.mp h with rfl | h
      · refine ⟨rfl, ?_, ?_, i, rfl, Nat.le_refl i⟩
        · rw [List.length_take]
          exact le_min (by omega) (Nat.le_of_not_lt hlen)
        · rw [List.length_take]
          exact min_le_left _ _
      · obtain ⟨h1, h2, h3, j, h4, h5⟩ := ih h
        exact ⟨h1, h2, h3, j, h4, Nat.le_of_succ_le h5⟩

/-- The marker indices of the emitted children are strictly increasing and
bounded below by the loop counter. -/
theorem buildSubEntries_idx {heading text : List Char} :
    ∀ {i : Nat} {ms : List (Nat × Nat)},
      List.Pairwise (· < ·)
          ((buildSubEntries heading text i ms).filterMap
            (fun c => c.subClauseIndex)) ∧
        ∀ j ∈ (buildSubEntries heading text i ms).filterMap
            (fun c => c.subClauseIndex), i ≤ j := by
  intro i ms
  induction ms generalizing i with
  | nil => simp [buildSubEntries]
  | cons m rest ih =>
    simp only [buildSubEntries]
    split
    · exact ⟨ih.1, fun j hj => Nat.le_of_succ_le (ih.2 j hj)⟩
    · rw [List.filterMap_cons]
      simp only
      constructor
      · exact List.pairwise_cons.mpr
          ⟨fun j hj => Nat.lt_of_succ_le (ih.2 j hj), ih.1⟩
      · intro j hj
        rcases List.mem_cons.mp hj with rfl | hj
        · exact Nat.le_refl j
        · exact Nat.le_of_succ_le (ih.2 j hj)

/-- Claim C4, amended: a clause with fewer than 2 detected markers passes
through unchanged; with 2 or more markers it is replaced by a preamble entry
(kept only when the pre-marker text is strictly longer than 30 chars)
followed by child entries whose texts are 20 to 3000 chars and whose
`subClauseIndex` values are the markers' 0-based indices — strictly
increasing, but not necessarily starting at 0 nor consecutive, because
sub-20-char spans are skipped while the marker counter still advances. -/
theorem c4_amended (c : Clause) :
    ((findSubMatches c.text).length < 2 → split_into_subclauses [c] = [c]) ∧
    (2 ≤ (findSubMatches c.text).length →
      split_into_subclauses [c] =
        (if 30 < (pyStrip (c.text.take (findSubMatches c.text).headI.1)).length
         then [⟨c.heading,
               (pyStrip (c.text.take (findSubMatches c.text).headI.1)).take 3000,
               none, none⟩]
         else []) ++
          buildSubEntries c.heading c.text 0 (findSubMatches c.text) ∧
      (∀ ch ∈ buildSubEntries c.heading c.text 0 (findSubMatches c.text),
        ch.parentHeading = some c.heading ∧ 20 ≤ ch.text.length ∧
          ch.text.length ≤ 3000 ∧ ch.subClauseIndex.isSome) ∧
      List.Pairwise (· < ·)
        ((buildSubEntries c.heading c.text 0
            (findSubMatches c.text)).filterMap (fun ch => ch.subClauseIndex))) := by
  constructor
  · intro h
    simp [split_into_subclauses, splitOneClause, h]
  · intro h
    refine ⟨?_, ?_, buildSubEntries_idx.1⟩
    · simp only [split_into_subclauses, List.flatMap_cons, List.flatMap_nil,
        List.append_nil, splitOneClause]
      rw [if_neg (by omega)]
    · intro ch hch
      obtain ⟨h1, h2, h3, j, h4, _⟩ := buildSubEntries_mem hch
      exact ⟨h1, h2, h3, by simp [h4]⟩

/-- The clause of claim C4's counterexample: two line-start markers, the
first span ("a) hi") under 20 chars. -/
def c4Clause : Clause :=
  ⟨"H".data,
   ("Preamble text long enough here, definitely over thirty chars.\n" ++
    "a) hi\nb) Party shall not disclose anything.").data,
   none, none⟩

/-- Claim C4 is false as stated: this clause has 2 detected markers, but the
first child span is under 20 chars and is skipped, so the only emitted child
has `subClauseIndex` 1 — the indices do not start at 0. -/
theorem c4_counterexample :
    2 ≤ (findSubMatches c4Clause.text).length ∧
      (split_into_subclauses [c4Clause]).filterMap
        (fun c => c.subClauseIndex) = [1] := by decide

/-- Witness for the amended claim C4 at a concrete clause with 3 markers. -/
theorem c4_amended_witness :
    2 ≤ (findSubMatches c1ClauseNl.text).length ∧
      split_into_subclauses [c1ClauseNl] =
        (if 30 < (pyStrip (c1ClauseNl.text.take
              (findSubMatches c1ClauseNl.text).headI.1)).length
         then [⟨c1ClauseNl.heading,
               (pyStrip (c1ClauseNl.text.take
                  (findSubMatches c1ClauseNl.text).headI.1)).take 3000,
               none, none⟩]
         else []) ++
          buildSubEntries c1ClauseNl.heading c1ClauseNl.text 0
            (findSubMatches c1ClauseNl.text) :=
  ⟨by decide, ((c4_amended c1ClauseNl).2 (by decide)).1⟩

/-! ## Claims C2 and C3: the cap selector -/

/-- Indices paired by `enumFrom n` are at least `n`. -/
theorem mem_enumFrom_le {α : Type} {l : List α} :
    ∀ {n : Nat} {p : Nat × α}, p ∈ l.enumFrom n → n ≤ p.1 := by
  induction l with
  | nil => intro n p h; simp [List.enumFrom] at h
  | cons a t ih =>
    intro n p h
    rw [List.enumFrom_cons] at h
    rcases List.mem_cons.mp h with rfl | h
    · exact Nat.le_refl n
    · exact Nat.le_of_succ_le (ih h)

/-- Generalization of `keptIdxs` with the enumeration starting at `n`. -/
def keptIdxsFrom (n : Nat) (l : List Clause) (rem : Nat) : List Nat :=
  (((l.enumFrom n).filter (fun p => isTopLevel p.2)).map Prod.fst) ++
    ((((l.enumFrom n).filter (fun p => !isTopLevel p.2)).map Prod.fst).take rem)

/-- Any index in a filtered `enumFrom n` projection is at least `n`. -/
theorem mem_idxs_le {n : Nat} {l : List Clause} {j : Nat}
    {f : Nat × Clause → Bool}
    (h : j ∈ ((l.enumFrom n).filter f).map Prod.fst) : n ≤ j := by
  obtain ⟨p, hp, rfl⟩ := List.mem_map.mp h
  exact mem_enumFrom_le (List.mem_filter.mp hp).1

/-- Unfolding `keptIdxsFrom` over a top-level head. -/
theorem keptIdxsFrom_cons_top {c : Clause} {t : List Clause} {n rem : Nat}
    (h : isTopLevel c = true) :
    keptIdxsFrom n (c :: t) rem = n :: keptIdxsFrom (n + 1) t rem := by
  simp [keptIdxsFrom, List.enumFrom_cons, List.filter_cons, h]

/-- Unfolding `keptIdxsFrom` over a sub-clause head. -/
theorem keptIdxsFrom_cons_sub {c : Clause} {t : List Clause} {n rem : Nat}
    (h : isTopLevel c = false) :
    keptIdxsFrom n (c :: t) rem =
      (((t.enumFrom (n + 1)).filter (fun p => isTopLevel p.2)).map Prod.fst) ++
        ((n :: (((t.enumFrom (n + 1)).filter
            (fun p => !isTopLevel p.2)).map Prod.fst)).take rem) := by
  simp [keptIdxsFrom, List.enumFrom_cons, List.filter_cons, h]

/-- The id-keyed rebuild of `_cap_clauses` equals the direct in-order walk
`capKeep`: keep every top-level clause and the first `rem` sub-clauses. -/
theorem rebuild_eq_capKeep :
    ∀ (l : List Clause) (n rem : Nat),
      (((l.enumFrom n).filter
          (fun p => decide (p.1 ∈ keptIdxsFrom n l rem))).map Prod.snd) =
        capKeep l rem := by
  intro l
  induction l with
  | nil => intro n rem; simp [List.enumFrom, capKeep]
  | cons c t ih =>
    intro n rem
    rw [List.enumFrom_cons]
    by_cases htop : isTopLevel c = true
    · rw [keptIdxsFrom_cons_top htop]
      rw [List.filter_cons_of_pos (by simp)]
      rw [List.filter_congr (fun p hp => ?_), List.map_cons, ih (n + 1) rem]
      · simp [capKeep, htop]
      · have hn : n + 1 ≤ p.1 := mem_enumFrom_le hp
        rw [decide_eq_decide]
        rw [List.mem_cons]
        constructor
        · rintro (h | h)
          · omega
          · exact h
        · exact Or.inr
    · have htop' : isTopLevel c = false := Bool.eq_false_iff.mpr htop
      rw [keptIdxsFrom_cons_sub htop']
      match rem with
      | 0 =>
        rw [List.filter_cons_of_neg ?hd]
        case hd =>
          simp only [List.take_zero, List.append_nil, decide_eq_true_eq]
          intro hmem
          exact absurd (mem_idxs_le hmem) (by omega)
        rw [List.filter_congr (fun p hp => ?_), ih (n + 1) 0]
        · simp [capKeep, htop']
        · rw [decide_eq_decide]
          simp [keptIdxsFrom]
      | r + 1 =>
        rw [List.take_succ_cons]
        rw [List.filter_cons_of_pos
          (by simp only [decide_eq_true_eq]
              exact List.mem_append_right _ (List.mem_cons_self _ _))]
        rw [List.filter_congr (fun p hp => ?_), List.map_cons, ih (n + 1) r]
        · simp [capKeep, htop']
        · have hn : n + 1 ≤ p.1 := mem_enumFrom_le hp
          rw [decide_eq_decide]
          simp only [keptIdxsFrom, List.mem_append, List.mem_cons]
          constructor
          · rintro (h | h | h)
            · exact Or.inl h
            · omega
            · exact Or.inr h
          · rintro (h | h)
            · exact Or.inl h
            · exact Or.inr (Or.inr h)

/-- Branch 3 of `_cap_clauses` computes `capKeep`. -/
theorem cap_eq_capKeep (clauses : List Clause) (limit : Nat)
    (h1 : limit < clauses.length)
    (h2 : (clauses.filter (fun c => isTopLevel c)).length < limit) :
    _cap_clauses clauses limit =
      capKeep clauses
        (limit - (clauses.filter (fun c => isTopLevel c)).length) := by
  rw [_cap_clauses, if_neg (by omega), if_neg (by omega)]
  exact rebuild_eq_capKeep clauses 0 _

/-- `capKeep` keeps exactly the top-level clauses of its input. -/
theorem capKeep_filter_top :
    ∀ (l : List Clause) (rem : Nat),
      (capKeep l rem).filter (fun c => isTopLevel c) =
        l.filter (fun c => isTopLevel c) := by
  intro l
  induction l with
  | nil => intro rem; simp [capKeep]
  | cons c t ih =>
    intro rem
    by_cases htop : isTopLevel c = true
    · simp [capKeep, htop, List.filter_cons, ih]
    · have htop' : isTopLevel c = false := Bool.eq_false_iff.mpr htop
      match rem with
      | 0 => simp [capKeep, htop', List.filter_cons, ih]
      | r + 1 => simp [capKeep, htop', List.filter_cons, ih]

/-- `capKeep` keeps exactly the first `rem` sub-clauses of its input. -/
theorem capKeep_filter_sub :
    ∀ (l : List Clause) (rem : Nat),
      (capKeep l rem).filter (fun c => !isTopLevel c) =
        (l.filter (fun c => !isTopLevel c)).take rem := by
  intro l
  induction l with
  | nil => intro rem; simp [capKeep]
  | cons c t ih =>
    intro rem
    by_cases htop : isTopLevel c = true
    · simp [capKeep, htop, List.filter_cons, ih]
    · have htop' : isTopLevel c = false := Bool.eq_false_iff.mpr htop
      match rem with
      | 0 => simp [capKeep, htop', List.filter_cons, ih]
      | r + 1 => simp [capKeep, htop', List.filter_cons, ih, List.take_cons]

/-- `capKeep` preserves the original document order (it is a sublist). -/
theorem capKeep_sublist :
    ∀ (l : List Clause) (rem : Nat), List.Sublist (capKeep l rem) l := by
  intro l
  induction l with
  | nil => intro rem; simp [capKeep]
  | cons c t ih =>
    intro rem
    by_cases htop : isTopLevel c = true
    · simpa [capKeep, htop] using List.Sublist.cons₂ c (ih rem)
    · have htop' : isTopLevel c = false := Bool.eq_false_iff.mpr htop
      match rem with
      | 0 => simpa [capKeep, htop'] using List.Sublist.cons c (ih 0)
      | r + 1 => simpa [capKeep, htop'] using List.Sublist.cons₂ c (ih r)

/-- Length of `capKeep`: all top-level clauses plus at most `rem` subs. -/
theorem capKeep_length :
    ∀ (l : List Clause) (rem : Nat),
      (capKeep l rem).length =
        (l.filter (fun c => isTopLevel c)).length +
          min rem (l.filter (fun c => !isTopLevel c)).length := by
  intro l
  induction l with
  | nil => intro rem; simp [capKeep]
  | cons c t ih =>
    intro rem
    by_cases htop : isTopLevel c = true
    · simp only [capKeep, htop, if_pos, List.length_cons, ih,
        List.filter_cons, Bool.not_true]
      simp [htop]
      omega
    · have htop' : isTopLevel c = false := Bool.eq_false_iff.mpr htop
      match rem with
      | 0 =>
        simp only [capKeep, htop', List.filter_cons]
        simp [htop', ih]
      | r + 1 =>
        simp only [capKeep, htop', List.filter_cons]
        simp only [htop', Bool.not_false, if_neg, Bool.false_eq_true,
          not_false_iff, List.length_cons, ih]
        simp
        omega

/-- Claim C2: for every clause list and limit L the cap selector returns at
most L clauses, and whenever at least L top-level clauses are present the
result is exactly L clauses, all top-level. -/
theorem c2_cap_invariant (clauses : List Clause) (limit : Nat) :
    (_cap_clauses clauses limit).length ≤ limit ∧
      (limit ≤ (clauses.filter (fun c => isTopLevel c)).length →
        (_cap_clauses clauses limit).length = limit ∧
          ∀ c ∈ _cap_clauses clauses limit, isTopLevel c = true) := by
  have hfl : (clauses.filter (fun c => isTopLevel c)).length ≤ clauses.length :=
    List.length_filter_le _ _
  by_cases h1 : clauses.length ≤ limit
  · rw [_cap_clauses, if_pos h1]
    refine ⟨h1, fun h2 => ⟨by omega, fun c hc => ?_⟩⟩
    have : (clauses.filter (fun c => isTopLevel c)).length = clauses.length := by
      omega
    rw [← List.countP_eq_length_filter] at this
    exact List.countP_eq_length.mp this c hc
  · by_cases h2 : limit ≤ (clauses.filter (fun c => isTopLevel c)).length
    · rw [_cap_clauses, if_neg h1, if_pos h2]
      refine ⟨?_, fun _ => ⟨?_, fun c hc => ?_⟩⟩
      · rw [List.length_take]; omega
      · rw [List.length_take]; omega
      · exact (List.mem_filter.mp (List.take_subset _ _ hc)).2
    · rw [cap_eq_capKeep clauses limit (by omega) (by omega)]
      refine ⟨?_, fun h2' => absurd h2' h2⟩
      rw [capKeep_length]
      omega

/-- Clause list for the cap witnesses: heading only matters. -/
def capTop (n : Nat) : Clause := ⟨("T" ++ Nat.repr n).data, "t".data, none, none⟩

/-- Sub-clause for the cap witnesses. -/
def capSub (n : Nat) : Clause :=
  ⟨("S" ++ Nat.repr n).data, "t".data, some "P".data, none⟩

/-- Witness for claim C2 at a 4-clause list with 3 top-level clauses and
limit 2. -/
theorem c2_witness :
    2 ≤ (([capTop 0, capSub 0, capTop 1, capTop 2].filter
        (fun c => isTopLevel c)).length) ∧
      (_cap_clauses [capTop 0, capSub 0, capTop 1, capTop 2] 2).length = 2 ∧
        ∀ c ∈ _cap_clauses [capTop 0, capSub 0, capTop 1, capTop 2] 2,
          isTopLevel c = true :=
  ⟨by decide,
   (c2_cap_invariant [capTop 0, capSub 0, capTop 1, capTop 2] 2).2 (by decide)⟩

/-- Claim C3: when the list is over the limit but has fewer than L top-level
clauses, the cap selector keeps every top-level clause, fills the remaining
capacity with the first sub-clauses in original order, and returns the kept
clauses as a sublist of the input (original document order). -/
theorem c3_cap_fill (clauses : List Clause) (limit : Nat)
    (h1 : limit < clauses.length)
    (h2 : (clauses.filter (fun c => isTopLevel c)).length < limit) :
    (_cap_clauses clauses limit).filter (fun c => isTopLevel c) =
        clauses.filter (fun c => isTopLevel c) ∧
      (_cap_clauses clauses limit).filter (fun c => !isTopLevel c) =
        (clauses.filter (fun c => !isTopLevel c)).take
          (limit - (clauses.filter (fun c => isTopLevel c)).length) ∧
      List.Sublist (_cap_clauses clauses limit) clauses := by
  rw [cap_eq_capKeep clauses limit h1 h2]
  exact ⟨capKeep_filter_top _ _, capKeep_filter_sub _ _, capKeep_sublist _ _⟩

/-- The 70-clause input of the spec's cap example: ten groups of four
top-level clauses followed by three sub-clauses (40 + 30 in total). -/
def c3Input : List Clause :=
  (List.range 10).flatMap (fun k =>
    [capTop (4 * k), capTop (4 * k + 1), capTop (4 * k + 2), capTop (4 * k + 3),
     capSub (3 * k), capSub (3 * k + 1), capSub (3 * k + 2)])

/-- Witness for claim C3: 40 top-level + 30 sub-clauses with limit 60 keeps
all 40 top-level clauses and the first 20 sub-clauses, rebuilt in document
order (the result is exactly the in-order walk `capKeep c3Input 20`). -/
theorem c3_witness :
    60 < c3Input.length ∧
      (c3Input.filter (fun c => isTopLevel c)).length = 40 ∧
      (_cap_clauses c3Input 60).filter (fun c => isTopLevel c) =
        c3Input.filter (fun c => isTopLevel c) ∧
      (_cap_clauses c3Input 60).filter (fun c => !isTopLevel c) =
        (c3Input.filter (fun c => !isTopLevel c)).take 20 ∧
      _cap_clauses c3Input 60 = capKeep c3Input 20 :=
  ⟨by decide, by decide,
   (c3_cap_fill c3Input 60 (by decide) (by decide)).1,
   by
     have h := (c3_cap_fill c3Input 60 (by decide) (by decide)).2.1
     simpa using h,
   by decide⟩

/-! ## Claims C5 and C6: index alignment and the no-match sentinel -/

/-- Claim C5: both locators return exactly one Position per input clause,
and the Position at index i is computed from the Clause at index i (also in
the sentinel case, which `clausePosition` / `ocrClausePosition` produce
internally). -/
theorem c5_index_alignment (pages : List PageData) (clauses : List Clause)
    (ocr_words : List OcrWord) (page_dims : List (ℚ × ℚ)) :
    (extract_clause_positions pages clauses).length = clauses.length ∧
      (match_clauses_to_ocr_boxes clauses ocr_words page_dims).length =
        clauses.length ∧
      (∀ i : Nat, (extract_clause_positions pages clauses).get? i =
        (clauses.get? i).map (clausePosition pages)) ∧
      (∀ i : Nat,
        (match_clauses_to_ocr_boxes clauses ocr_words page_dims).get? i =
          (clauses.get? i).map (ocrClausePosition ocr_words page_dims)) := by
  refine ⟨List.length_map _ _, List.length_map _ _, fun i => ?_, fun i => ?_⟩
  · simp [extract_clause_positions, List.get?_eq_getElem?, List.getElem?_map]
  · simp [match_clauses_to_ocr_boxes, List.get?_eq_getElem?, List.getElem?_map]

/-- Claim C6: every no-match branch of both locators yields the sentinel
`{pageNumber: 0, rects: [], pageWidth: 612, pageHeight: 792}` exactly: the
direct locator when all three snippet lengths fail, and the OCR matcher when
the clause has under 3 tokens or the best window score is under 3. -/
theorem c6_sentinel :
    (∀ (pages : List PageData) (clause : Clause),
      trySnippetLen pages (pyStrip clause.text) 80 = none →
      trySnippetLen pages (pyStrip clause.text) 50 = none →
      trySnippetLen pages (pyStrip clause.text) 30 = none →
      clausePosition pages clause = noMatchPosition) ∧
    (∀ (ocr_words : List OcrWord) (page_dims : List (ℚ × ℚ)) (clause : Clause),
      ((alnumRuns (((pyStrip clause.text).take 200).map
          Char.toLower)).length < 3 ∨
        (ocrBestMatch ocr_words
          ((alnumRuns (((pyStrip clause.text).take 200).map
            Char.toLower)).take 8)).2 < 3) →
      ocrClausePosition ocr_words page_dims clause = noMatchPosition) ∧
    noMatchPosition = ⟨0, [], 612, 792⟩ := by
  refine ⟨fun pages clause h80 h50 h30 => ?_, fun ocr dims clause h => ?_, rfl⟩
  · simp only [clausePosition, h80, h50, h30]
  · by_cases h3 : (alnumRuns (((pyStrip clause.text).take 200).map
        Char.toLower)).length < 3
    · simp only [ocrClausePosition]
      rw [if_pos h3]
    · rcases h with h | h
      · exact absurd h h3
      · simp only [ocrClausePosition]
        rw [if_neg h3, if_pos]
        simp only [Bool.or_eq_true, decide_eq_true_eq]
        exact Or.inl h

/-- A clause whose text never occurs in the document (for the C6 witness). -/
def c6Unfindable : Clause :=
  ⟨"q".data, "completely absent paragraph that matches nothing in there".data,
   none, none⟩

/-- A two-word clause (fewer than 3 tokens, for the C6 witness). -/
def c6Short : Clause := ⟨"q".data, "ab cd".data, none, none⟩

/-- Witness for claim C6: an empty page list defeats all three snippet
lengths of the direct locator, and a 2-token clause defeats the OCR matcher;
both produce the sentinel. -/
theorem c6_witness :
    clausePosition [] c6Unfindable = noMatchPosition ∧
      ocrClausePosition [] [] c6Short = noMatchPosition :=
  ⟨c6_sentinel.1 [] c6Unfindable (by decide) (by decide) (by decide),
   c6_sentinel.2.1 [] [] c6Short (Or.inl (by decide))⟩

/-! ## Claims C7 and C10: the sliding-window scorer -/

/-- Counting fold: the `score += 1` loop counts the satisfying elements. -/
theorem foldl_count_aux {α : Type} (p : α → Bool) :
    ∀ (l : List α) (s : Nat),
      l.foldl (fun acc x => if p x then acc + 1 else acc) s = s + l.countP p := by
  intro l
  induction l with
  | nil => intro s; simp
  | cons a t ih =>
    intro s
    simp only [List.foldl_cons, List.countP_cons]
    by_cases h : p a = true
    · simp [h, ih]
      omega
    · simp [h, ih]

/-- Best-score fold: the running `best_score` is the max of the examined
scores. -/
theorem foldl_best_score (score : Nat → Nat) :
    ∀ (l : List Nat) (b : Int × Nat),
      (l.foldl (fun best i =>
          if best.2 < score i then (Int.ofNat i, score i) else best) b).2 =
        max b.2 ((l.map score).foldr max 0) := by
  intro l
  induction l with
  | nil => intro b; simp
  | cons a t ih =>
    intro b
    simp only [List.foldl_cons, List.map_cons, List.foldr_cons]
    by_cases h : b.2 < score a
    · rw [if_pos h, ih]
      simp only
      omega
    · rw [if_neg h, ih]
      omega

/-- Best-score fold: the accumulator is either untouched or set at some
examined index to that index's score. -/
theorem foldl_best_attain (score : Nat → Nat) :
    ∀ (l : List Nat) (b : Int × Nat),
      l.foldl (fun best i =>
          if best.2 < score i then (Int.ofNat i, score i) else best) b = b ∨
        ∃ i ∈ l,
          l.foldl (fun best i =>
              if best.2 < score i then (Int.ofNat i, score i) else best) b =
            (Int.ofNat i, score i) := by
  intro l
  induction l with
  | nil => intro b; exact Or.inl rfl
  | cons a t ih =>
    intro b
    simp only [List.foldl_cons]
    by_cases h : b.2 < score a
    · rw [if_pos h]
      rcases ih (Int.ofNat a, score a) with heq | ⟨i, hi, heq⟩
      · exact Or.inr ⟨a, List.mem_cons_self a t, heq⟩
      · exact Or.inr ⟨i, List.mem_cons_of_mem a hi, heq⟩
    · rw [if_neg h]
      rcases ih b with heq | ⟨i, hi, heq⟩
      · exact Or.inl heq
      · exact Or.inr ⟨i, List.mem_cons_of_mem a hi, heq⟩

/-- A best score under 3 produces the sentinel (factored out of C7). -/
theorem c7_sentinel_aux (ocr_words : List OcrWord)
    (page_dims : List (ℚ × ℚ)) (clause : Clause)
    (h : (ocrBestMatch ocr_words
      ((alnumRuns (((pyStrip clause.text).take 200).map
        Char.toLower)).take 8)).2 < 3) :
    ocrClausePosition ocr_words page_dims clause = noMatchPosition := by
  by_cases h3 : (alnumRuns (((pyStrip clause.text).take 200).map
      Char.toLower)).length < 3
  · simp only [ocrClausePosition]
    rw [if_pos h3]
  · simp only [ocrClausePosition]
    rw [if_neg h3, if_pos]
    simp only [Bool.or_eq_true, decide_eq_true_eq]
    exact Or.inl h

/-- Claim C7: at every examined offset the score counts the target tokens
(at most 8, since the target is `clause_words_lower[:8]`) whose aligned OCR
word, within 8 positions of the offset, starts (lowercased) with the token's
4-char prefix; the kept offset attains the highest examined score; and a best
score under 3 makes the clause a no-match sentinel. -/
theorem c7_window_scoring :
    (∀ (ocr_words : List OcrWord) (target : List (List Char)) (i : Nat),
      ocrWindowScore ocr_words target i =
        target.enum.countP (fun jt => ocrPrefixHit ocr_words (i + jt.1) jt.2)) ∧
    (∀ (ocr_words : List OcrWord) (target : List (List Char)),
      (ocrBestMatch ocr_words target).2 =
        ((List.range (ocr_words.length - target.length)).map
          (ocrWindowScore ocr_words target)).foldr max 0) ∧
    (∀ (ocr_words : List OcrWord) (target : List (List Char)),
      0 < (ocrBestMatch ocr_words target).2 →
        (ocrBestMatch ocr_words target).1.toNat ∈
            List.range (ocr_words.length - target.length) ∧
          ocrWindowScore ocr_words target
              (ocrBestMatch ocr_words target).1.toNat =
            (ocrBestMatch ocr_words target).2) ∧
    (∀ (ocr_words : List OcrWord) (page_dims : List (ℚ × ℚ)) (clause : Clause),
      3 ≤ (alnumRuns (((pyStrip clause.text).take 200).map
          Char.toLower)).length →
      (ocrBestMatch ocr_words
        ((alnumRuns (((pyStrip clause.text).take 200).map
          Char.toLower)).take 8)).2 < 3 →
      ocrClausePosition ocr_words page_dims clause = noMatchPosition) := by
  refine ⟨fun ocr target i => ?_, fun ocr target => ?_,
    fun ocr target h => ?_, fun ocr dims clause _ h => ?_⟩
  · simpa [ocrWindowScore] using
      foldl_count_aux (fun jt => ocrPrefixHit ocr (i + jt.1) jt.2) target.enum 0
  · simpa [ocrBestMatch] using
      foldl_best_score (ocrWindowScore ocr target)
        (List.range (ocr.length - target.length)) (-1, 0)
  · rcases foldl_best_attain (ocrWindowScore ocr target)
        (List.range (ocr.length - target.length)) (-1, 0) with heq | ⟨i, hi, heq⟩
    · rw [ocrBestMatch] at h ⊢
      rw [heq] at h
      exact absurd h (by norm_num)
    · rw [ocrBestMatch] at h ⊢
      rw [heq]
      simpa using hi
  · exact c7_sentinel_aux ocr dims clause h

/-- OCR words for the C7 witness: an exact match at offset 0. -/
def c7Ocr : List OcrWord :=
  [⟨"This".data, 10, 10, 40, 20, 0⟩, ⟨"Agreement".data, 45, 10, 120, 20, 0⟩,
   ⟨"covers".data, 10, 30, 50, 40, 0⟩, ⟨"Confidential".data, 10, 50, 90, 60, 0⟩,
   ⟨"information".data, 95, 50, 170, 60, 0⟩]

/-- Target token list for the C7 witness. -/
def c7Target : List (List Char) := ["this".data, "agreement".data, "covers".data]

/-- A clause sharing no 4-char prefix with the C7 OCR words. -/
def c7Miss : Clause := ⟨"q".data, "zzz qqq www eee rrr".data, none, none⟩

/-- Witness for claim C7: the kept offset attains the best score on a
concrete match, and a concrete sub-3 best score yields the sentinel. -/
theorem c7_witness :
    ((ocrBestMatch c7Ocr c7Target).1.toNat ∈
        List.range (c7Ocr.length - c7Target.length) ∧
      ocrWindowScore c7Ocr c7Target (ocrBestMatch c7Ocr c7Target).1.toNat =
        (ocrBestMatch c7Ocr c7Target).2) ∧
      ocrClausePosition c7Ocr [] c7Miss = noMatchPosition :=
  ⟨c7_window_scoring.2.2.1 c7Ocr c7Target (by decide),
   c7_window_scoring.2.2.2 c7Ocr [] c7Miss (by decide) (by decide)⟩

/-- Claim C10: when the OCR word list has no more words than the matching
target, `range(len(ocr_words) - len(target))` is empty, the window loop never
runs (best stays `(-1, 0)`), and the sentinel is emitted regardless of the
word contents — even at the one alignment where the target could match. -/
theorem c10_window_exclusion (ocr_words : List OcrWord)
    (page_dims : List (ℚ × ℚ)) (clause : Clause)
    (h3 : 3 ≤ (alnumRuns (((pyStrip clause.text).take 200).map
      Char.toLower)).length)
    (hle : ocr_words.length ≤
      ((alnumRuns (((pyStrip clause.text).take 200).map
        Char.toLower)).take 8).length) :
    List.range (ocr_words.length -
        ((alnumRuns (((pyStrip clause.text).take 200).map
          Char.toLower)).take 8).length) = [] ∧
      ocrBestMatch ocr_words
        ((alnumRuns (((pyStrip clause.text).take 200).map
          Char.toLower)).take 8) = (-1, 0) ∧
      ocrClausePosition ocr_words page_dims clause = noMatchPosition := by
  have hr : List.range (ocr_words.length -
      ((alnumRuns (((pyStrip clause.text).take 200).map
        Char.toLower)).take 8).length) = [] := by
    rw [Nat.sub_eq_zero_of_le hle, List.range_zero]
  have hb : ocrBestMatch ocr_words
      ((alnumRuns (((pyStrip clause.text).take 200).map
        Char.toLower)).take 8) = (-1, 0) := by
    rw [ocrBestMatch, hr, List.foldl_nil]
  refine ⟨hr, hb, ?_⟩
  simp only [ocrClausePosition, hb]
  rw [if_neg (by omega), if_pos (by decide)]

/-- The exact-alignment clause for the C10 witness. -/
def c10Clause : Clause := ⟨"q".data, "alpha beta gamma".data, none, none⟩

/-- Three OCR words that would match `c10Clause` exactly at offset 0. -/
def c10Ocr : List OcrWord :=
  [⟨"alpha".data, 0, 0, 1, 1, 0⟩, ⟨"beta".data, 2, 0, 3, 1, 0⟩,
   ⟨"gamma".data, 4, 0, 5, 1, 0⟩]

/-- Witness for claim C10: three OCR words that spell the 3-token clause
exactly still produce the sentinel, because the loop range is empty. -/
theorem c10_witness :
    ocrClausePosition c10Ocr [] c10Clause = noMatchPosition :=
  (c10_window_exclusion c10Ocr [] c10Clause (by decide) (by decide)).2.2

/-! ## Claim C8: the paragraph fallback -/

/-- The fallback loop is the enumerated filter of the paragraph list: index
`i` counts every paragraph, kept or skipped. -/
theorem fallbackAux_eq_filterMap :
    ∀ (ps : List (List Char)) (i : Nat),
      fallbackAux i ps =
        (List.enumFrom i ps).filterMap (fun p =>
          if (pyStrip p.2).length < 30 then none
          else some ⟨("Section " ++ Nat.repr (p.1 + 1)).data,
            (pyStrip p.2).take 3000, none, none⟩) := by
  intro ps
  induction ps with
  | nil => intro i; simp [fallbackAux, List.enumFrom]
  | cons para rest ih =>
    intro i
    rw [List.enumFrom_cons, List.filterMap_cons]
    simp only [fallbackAux]
    by_cases h : (pyStrip para).length < 30
    · rw [if_pos h]
      simp only [if_pos h]
      exact ih (i + 1)
    · rw [if_neg h]
      simp only [if_neg h]
      rw [ih (i + 1)]

/-- Claim C8, amended: the paragraph fallback runs when the primary
heading-based split yields no clause (every boundary-delimited segment is
under 30 chars after stripping — in particular, with no boundary markers at
all this forces the whole text under 30 chars, so nothing survives either
path); it splits on blank lines, keeps paragraphs whose stripped length is at
least 30, and synthesizes heading "Section (i+1)" from each kept paragraph's
index i among ALL paragraphs, so the numbering skips filtered paragraphs
rather than running consecutively over the retained ones. -/
theorem c8_fallback (t : List Char) (h : primaryClauses t = []) :
    extract_clauses t =
      (splitOnBlank t).enum.filterMap (fun p =>
        if (pyStrip p.2).length < 30 then none
        else some ⟨("Section " ++ Nat.repr (p.1 + 1)).data,
          (pyStrip p.2).take 3000, none, none⟩) := by
  simp only [extract_clauses, h, List.isEmpty_nil, if_pos]
  exact fallbackAux_eq_filterMap (splitOnBlank t) 0

/-- The C8 counterexample input: 40 `x`s, no boundary marker anywhere. -/
def c8Text : List Char := List.replicate 40 'x'

/-- Claim C8 is false as stated: the split finds no boundary marker in
`c8Text` (the section list is just the whole text), yet no paragraph
fallback runs — the whole text becomes one clause whose heading is the text
itself, not the synthesized "Section 1". -/
theorem c8_counterexample :
    splitSections c8Text = [c8Text] ∧
      extract_clauses c8Text = [⟨c8Text, c8Text, none, none⟩] ∧
      (extract_clauses c8Text).map (fun c => c.heading) ≠ ["Section 1".data] := by
  decide

/-- The C8 witness input: every primary section is under 30 chars, the first
paragraph is skipped by the 30-char filter, and the kept paragraph gets
heading "Section 2". -/
def c8Para : List Char := "1. z\n\n2. aaa\n3. bbb\n4. ccc\n5. ddd\n6. eee".data

/-- Witness for the amended claim C8: the fallback keeps one paragraph and
numbers it by its paragraph index (Section 2, not Section 1). -/
theorem c8_witness :
    primaryClauses c8Para = [] ∧
      extract_clauses c8Para =
        (splitOnBlank c8Para).enum.filterMap (fun p =>
          if (pyStrip p.2).length < 30 then none
          else some ⟨("Section " ++ Nat.repr (p.1 + 1)).data,
            (pyStrip p.2).take 3000, none, none⟩) ∧
      extract_clauses c8Para =
        [⟨"Section 2".data, "2. aaa\n3. bbb\n4. ccc\n5. ddd\n6. eee".data,
          none, none⟩] :=
  ⟨by decide, c8_fallback c8Para (by decide), by decide⟩

/-! ## Claim C9: pipeline length bounds -/

/-- Child headings are truncated to 100 chars. -/
theorem buildSubEntries_heading_le {heading text : List Char} :
    ∀ {i : Nat} {ms : List (Nat × Nat)} {c : Clause},
      c ∈ buildSubEntries heading text i ms → c.heading.length ≤ 100 := by
  intro i ms
  induction ms generalizing i with
  | nil => intro c h; simp [buildSubEntries] at h
  | cons m rest ih =>
    intro c h
    simp only [buildSubEntries] at h
    split at h
    · exact ih h
    · rcases List.mem_cons.mp h with rfl | h
      · exact List.length_take_le _ _
      · exact ih h

/-- The bound every pipeline clause satisfies: capped text, and a heading
that is either capped or a synthesized "Section N". -/
def clauseBounded (c : Clause) : Prop :=
  c.text.length ≤ 3000 ∧
    (c.heading.length ≤ 100 ∨
      ∃ n : Nat, c.heading = ("Section " ++ Nat.repr n).data)

/-- Every clause built by the fallback loop is bounded (its heading is the
synthesized "Section (i+1)"). -/
theorem fallbackAux_bounded :
    ∀ (ps : List (List Char)) (i : Nat) (c : Clause),
      c ∈ fallbackAux i ps → clauseBounded c := by
  intro ps
  induction ps with
  | nil => intro i c h; simp [fallbackAux] at h
  | cons para rest ih =>
    intro i c h
    simp only [fallbackAux] at h
    split at h
    · exact ih (i + 1) c h
    · rcases List.mem_cons.mp h with rfl | h
      · exact ⟨List.length_take_le _ _, Or.inr ⟨i + 1, rfl⟩⟩
      · exact ih (i + 1) c h

/-- Every clause built from a primary section is bounded (heading truncated
to 100, text to 3000). -/
theorem sectionToClause_bounded {sec : List Char} {c : Clause}
    (h : sectionToClause sec = some c) : clauseBounded c := by
  rw [sectionToClause] at h
  split at h
  · exact absurd h (by simp)
  · rw [Option.some.injEq] at h
    subst h
    refine ⟨List.length_take_le _ _, Or.inl ?_⟩
    split
    · exact List.length_take_le _ _
    · exact List.length_take_le _ _

/-- Every clause of `extract_clauses` is bounded. -/
theorem extract_clauses_bounded {t : List Char} {c : Clause}
    (hc : c ∈ extract_clauses t) : clauseBounded c := by
  simp only [extract_clauses] at hc
  split at hc
  · exact fallbackAux_bounded _ 0 c hc
  · rw [primaryClauses, List.mem_filterMap] at hc
    obtain ⟨sec, _, hsec⟩ := hc
    exact sectionToClause_bounded hsec

/-- `split_into_subclauses` preserves the bound: pass-through and preamble
entries inherit it, children get freshly truncated fields. -/
theorem split_preserves_bounded {clauses : List Clause}
    (H : ∀ c ∈ clauses, clauseBounded c) :
    ∀ c ∈ split_into_subclauses clauses, clauseBounded c := by
  intro c hc
  rw [split_into_subclauses, List.mem_flatMap] at hc
  obtain ⟨c0, hc0, hcs⟩ := hc
  have h0 := H c0 hc0
  rw [splitOneClause] at hcs
  split at hcs
  · rw [List.mem_singleton] at hcs
    subst hcs
    exact h0
  · rcases List.mem_append.mp hcs with hpre | hch
    · split at hpre
      · rw [List.mem_singleton] at hpre
        subst hpre
        exact ⟨List.length_take_le _ _, h0.2⟩
      · simp at hpre
    · exact ⟨(buildSubEntries_mem hch).2.2.1,
        Or.inl (buildSubEntries_heading_le hch)⟩

/-- Claim C9, amended: every Clause of the segmentation pipeline has text of
at most 3000 chars, and its heading is at most 100 chars except for
paragraph-fallback clauses, whose heading is exactly a synthesized
"Section N" (8 chars plus the digits of N — over 100 chars only when the
document has at least 10^92 paragraphs). -/
theorem c9_length_bounds (t : List Char) (c : Clause)
    (hc : c ∈ split_into_subclauses (extract_clauses t)) :
    c.text.length ≤ 3000 ∧
      (c.heading.length ≤ 100 ∨
        ∃ n : Nat, c.heading = ("Section " ++ Nat.repr n).data) :=
  split_preserves_bounded (fun _ h0 => extract_clauses_bounded h0) c hc

/-- Witness for the amended claim C9 at a one-clause document. -/
theorem c9_length_bounds_witness :
    (⟨c8Text, c8Text, none, none⟩ : Clause) ∈
        split_into_subclauses (extract_clauses c8Text) ∧
      ((⟨c8Text, c8Text, none, none⟩ : Clause).text.length ≤ 3000 ∧
        ((⟨c8Text, c8Text, none, none⟩ : Clause).heading.length ≤ 100 ∨
          ∃ n : Nat, (⟨c8Text, c8Text, none, none⟩ : Clause).heading =
            ("Section " ++ Nat.repr n).data)) :=
  ⟨by decide, c9_length_bounds c8Text _ (by decide)⟩

/-! ### The C9 counterexample

A document of 10^92 tiny paragraphs followed by one 31-char paragraph of
sub-30-char numbered sections: the primary split keeps nothing, the fallback
keeps the last paragraph, and its synthesized heading "Section (10^92 + 1)"
is 101 chars long. -/

/-- The repeated tiny paragraph "1. a\n\n". -/
def c9Unit : List Char := ['1', '.', ' ', 'a', '\n', '\n']

/-- The final paragraph: 31 chars, all of its primary sections under 30. -/
def c9Par : List Char := "1. aaaa\n2. bbbb\n3. cccc\n4. dddd".data

/-- The paragraph count of the counterexample document. -/
def c9N : Nat := 10 ^ 92

/-- The counterexample document. -/
def c9Text : List Char := (List.replicate c9N c9Unit).flatten ++ c9Par

/-- The primary lookahead fires on `1. ` (the single-level alternative),
whatever follows. -/
theorem c9_lookahead_cons (s : List Char) :
    lookaheadPrimary ('1' :: '.' :: ' ' :: s) = true := rfl

/-- Any repetition of `c9Unit` before `c9Par` starts with `1. `. -/
theorem c9_tail_lookahead :
    ∀ k, lookaheadPrimary ((List.replicate k c9Unit).flatten ++ c9Par) = true := by
  intro k
  cases k with
  | zero => decide
  | succ j =>
    rw [List.replicate_succ, List.flatten_cons, List.append_assoc]
    exact c9_lookahead_cons ('a' :: '\n' :: '\n' ::
      ((List.replicate j c9Unit).flatten ++ c9Par))

/-- One unit step of the primary piece scan: the first newline of the unit is
not a boundary (the next char is a newline), the second is when the suffix
starts with a marker. -/
theorem c9_split_unit (s : List Char) (h : lookaheadPrimary s = true) :
    splitPiecesAux [] (c9Unit ++ s) = "1. a\n".data :: splitPiecesAux [] s := by
  have h5 : splitPiecesAux [] (c9Unit ++ s) =
      splitPiecesAux ['\n', 'a', ' ', '.', '1'] ('\n' :: s) := rfl
  rw [h5]
  simp only [splitPiecesAux, h, Bool.and_true]
  rfl

/-- The primary pieces of the counterexample prefix: one "1. a\n" piece per
unit. -/
theorem c9_pieces :
    ∀ k, splitPiecesAux [] ((List.replicate k c9Unit).flatten ++ c9Par) =
      List.replicate k ("1. a\n".data) ++ splitPiecesAux [] c9Par := by
  intro k
  induction k with
  | zero => simp
  | succ j ih =>
    rw [List.replicate_succ, List.flatten_cons, List.append_assoc,
      c9_split_unit _ (c9_tail_lookahead j), ih, List.replicate_succ,
      List.cons_append]

/-- `filterMap` drops every copy of an element it maps to `none`. -/
theorem filterMap_replicate_none {α β : Type} (f : α → Option β) (a : α)
    (h : f a = none) :
    ∀ n, List.filterMap f (List.replicate n a) = [] := by
  intro n
  induction n with
  | zero => rfl
  | succ j ih => simp [List.replicate_succ, List.filterMap_cons, h, ih]

/-- The primary path keeps nothing on the counterexample document. -/
theorem c9_primary : primaryClauses c9Text = [] := by
  have hsec : splitSections c9Text =
      ([([] : List Char)] ++ List.replicate c9N ("1. a\n".data)) ++
        splitPiecesAux [] c9Par := by
    have hla : lookaheadPrimary c9Text = true := c9_tail_lookahead c9N
    rw [splitSections, if_pos hla]
    rw [show splitPiecesAux [] c9Text =
        List.replicate c9N ("1. a\n".data) ++ splitPiecesAux [] c9Par from
      c9_pieces c9N]
    rfl
  rw [primaryClauses, hsec, List.filterMap_append, List.filterMap_append]
  rw [filterMap_replicate_none sectionToClause _ (by decide)]
  have h1 : List.filterMap sectionToClause [([] : List Char)] = [] := by decide
  have h2 : List.filterMap sectionToClause (splitPiecesAux [] c9Par) = [] := by
    decide
  rw [h1, h2]
  rfl

/-- One unit step of the blank-line paragraph split. -/
theorem c9_blank_unit (s : List Char) :
    splitOnBlankAux [] (c9Unit ++ s) = "1. a".data :: splitOnBlankAux [] s :=
  rfl

/-- The paragraphs of the counterexample document: 10^92 copies of "1. a"
and then `c9Par`. -/
theorem c9_paragraphs :
    ∀ k, splitOnBlankAux [] ((List.replicate k c9Unit).flatten ++ c9Par) =
      List.replicate k ("1. a".data) ++ splitOnBlankAux [] c9Par := by
  intro k
  induction k with
  | zero => simp
  | succ j ih =>
    rw [List.replicate_succ, List.flatten_cons, List.append_assoc,
      c9_blank_unit, ih, List.replicate_succ, List.cons_append]

/-- The fallback loop skips the tiny paragraphs but counts them, so the one
kept paragraph is numbered `i + k + 1`. -/
theorem c9_fallback_repl :
    ∀ (k i : Nat), fallbackAux i (List.replicate k ("1. a".data) ++ [c9Par]) =
      [⟨("Section " ++ Nat.repr (i + k + 1)).data, c9Par, none, none⟩] := by
  intro k
  induction k with
  | zero =>
    intro i
    show fallbackAux i [c9Par] = _
    simp only [fallbackAux]
    rw [if_neg (by decide)]
    have htake : (pyStrip c9Par).take 3000 = c9Par := by decide
    rw [htake]
  | succ j ih =>
    intro i
    rw [List.replicate_succ, List.cons_append]
    simp only [fallbackAux]
    rw [if_pos (by decide), ih (i + 1)]
    have : i + 1 + j + 1 = i + (j + 1) + 1 := by omega
    rw [this]

/-- Claim C9 is false as stated: the pipeline output on `c9Text` is a single
clause whose synthesized heading "Section (10^92 + 1)" is 101 chars long,
exceeding the claimed 100-char bound (the text bound does hold). -/
theorem c9_counterexample :
    split_into_subclauses (extract_clauses c9Text) =
        [⟨("Section " ++ Nat.repr (10 ^ 92 + 1)).data, c9Par, none, none⟩] ∧
      (("Section " ++ Nat.repr (10 ^ 92 + 1)).data).length = 101 ∧
      ¬ (("Section " ++ Nat.repr (10 ^ 92 + 1)).data).length ≤ 100 := by
  have hec : extract_clauses c9Text =
      [⟨("Section " ++ Nat.repr (10 ^ 92 + 1)).data, c9Par, none, none⟩] := by
    simp only [extract_clauses, c9_primary, List.isEmpty_nil, if_pos]
    rw [splitOnBlank,
      show splitOnBlankAux [] c9Text =
        List.replicate c9N ("1. a".data) ++ splitOnBlankAux [] c9Par from
      c9_paragraphs c9N]
    rw [show splitOnBlankAux [] c9Par = [c9Par] from by decide]
    rw [c9_fallback_repl c9N 0]
    have hn : (0 : Nat) + c9N + 1 = 10 ^ 92 + 1 := by
      rw [Nat.zero_add, c9N]
    rw [hn]
  refine ⟨?_, by decide, by decide⟩
  rw [hec]
  simp only [split_into_subclauses, List.flatMap_cons, List.flatMap_nil,
    List.append_nil, splitOneClause]
  rw [show findSubMatches c9Par = [] from by decide]
  rfl

end ContractPilot
